import Mathlib

/-!
Verification of the orchestration core of the jovo framework
(App and HandleRequest, src/unnamed/part_000) against its
natural-language specification.

The development has three parts:

1. A heap model of JavaScript object graphs, used to state and prove
   the deep-clone isolation invariant of the HandleRequest constructor
   (it calls lodash cloneDeep on the App's config and on the App itself,
   part_000 lines 217-221).

2. A model of lodash merge on JSON-like value trees, used to settle the
   configure() deep-merge semantics (part_000 lines 95-99).

3. An operational model of App.initialize, App.handle, App.handleError
   and HandleRequest.stopMiddlewareExecution as pure functions from a
   model state to an event trace and an outcome, used for the pipeline,
   error-routing and lifecycle claims.
-/

namespace Jovo

/-! ## Part 1: heap model of object graphs and deep cloning -/

/-- Materialized JavaScript value tree: scalar leaves and string-keyed
objects, the shape of the App's config and plugin registry data. -/
inductive Val where
  | scalar : String → Val
  | obj : List (String × Val) → Val
deriving Repr

/-- Heap node: a scalar, or an object whose fields reference other heap
addresses. A heap address is an index into the heap list. -/
inductive JsNode where
  | scalarN : String → JsNode
  | objN : List (String × Nat) → JsNode
deriving Repr, DecidableEq

/-- Heaps model the JavaScript object store; allocation appends. -/
abbrev Heap := List JsNode

/-- Addresses referenced directly by a node. -/
def nodeAddrs : JsNode → List Nat
  | .scalarN _ => []
  | .objN fs => fs.map Prod.snd

mutual
/-- Models the allocation performed by lodash cloneDeep (imported by
HandleRequest, part_000 line 206): fresh heap nodes are appended for a
deep copy of the value, no address of the existing heap is reused.
Returns the extended heap and the root address of the copy. -/
def storeVal : Val → Heap → Heap × Nat
  | .scalar s, h => (h ++ [.scalarN s], h.length)
  | .obj fs, h =>
    let p := storeFields fs h
    (p.1 ++ [.objN p.2], p.1.length)

/-- Stores each field value of an object in turn, returning the final
heap and the field-name/address pairs of the copies. -/
def storeFields : List (String × Val) → Heap → Heap × List (String × Nat)
  | [], h => (h, [])
  | f :: rest, h =>
    let p := storeVal f.2 h
    let q := storeFields rest p.1
    (q.1, (f.1, p.2) :: q.2)
end

/-- Fuelled dereference: materializes the value tree rooted at an
address. Fuel bounds the depth so that reading is total even on
arbitrary (possibly cyclic) heaps. -/
def readFuel : Nat → Heap → Nat → Option Val
  | 0, _, _ => none
  | f + 1, h, a =>
    match h[a]? with
    | some (.scalarN s) => some (.scalar s)
    | some (.objN fs) =>
      (fs.mapM (fun p => (readFuel f h p.2).map (fun v => (p.1, v)))).map Val.obj
    | none => none

/-- In-place mutation of the node at an address, the model of a
JavaScript field assignment on an existing object. -/
def writeNode (h : Heap) (a : Nat) (nd : JsNode) : Heap := h.set a nd

/-- A region of the heap (the set of addresses satisfying P) is closed
when every node stored at an address of the region only references
addresses of the region. -/
def RegionClosed (h : Heap) (P : Nat → Prop) : Prop :=
  ∀ i, P i → ∀ nd, h[i]? = some nd → ∀ a ∈ nodeAddrs nd, P a

/-- Decidable check that every node of the heap references only
addresses below the heap length. -/
def heapClosedB (h : Heap) : Bool :=
  h.all (fun nd => (nodeAddrs nd).all (fun a => decide (a < h.length)))

theorem regionClosed_of_heapClosedB {h : Heap} (hc : heapClosedB h = true) :
    RegionClosed h (fun i => i < h.length) := by
  intro i _ nd hget a ha
  have hmem : nd ∈ h := List.getElem?_mem hget
  have := (List.all_eq_true.mp hc) nd hmem
  have := (List.all_eq_true.mp this) a ha
  exact of_decide_eq_true this

theorem mapM_option_congr {α β : Type} (g g' : α → Option β) :
    ∀ (l : List α), (∀ x ∈ l, g x = g' x) → l.mapM g = l.mapM g'
  | [], _ => rfl
  | x :: xs, hx => by
    simp only [List.mapM_cons]
    rw [hx x (by simp), mapM_option_congr g g' xs (fun y hy => hx y (by simp [hy]))]

/-- Reading inside a closed region only depends on the heap entries of
that region: two heaps that agree on a closed region yield the same
materialized value at every root of the region. -/
theorem readFuel_congr (P : Nat → Prop) (h h' : Heap)
    (agree : ∀ i, P i → h[i]? = h'[i]?)
    (closed : RegionClosed h P) :
    ∀ f a, P a → readFuel f h a = readFuel f h' a := by
  intro f
  induction f with
  | zero => intro a _; rfl
  | succ f ih =>
    intro a hPa
    simp only [readFuel]
    rw [← agree a hPa]
    cases hget : h[a]? with
    | none => rfl
    | some nd =>
      cases nd with
      | scalarN s => rfl
      | objN fs =>
        have haddr : ∀ p ∈ fs, P p.2 := by
          intro p hp
          exact closed a hPa _ hget p.2 (by simp [nodeAddrs]; exact ⟨p.1, hp⟩)
        exact congrArg (Option.map Val.obj)
          (mapM_option_congr _ _ fs (fun p hp => by rw [ih p.2 (haddr p hp)]))

mutual
/-- Allocation spec of the deep clone: the heap only grows (old entries
are untouched), the root of the copy is a fresh address, and the
freshly allocated region only references fresh addresses. -/
theorem storeVal_spec : ∀ (v : Val) (h : Heap),
    ∃ t, (storeVal v h).1 = h ++ t ∧
      h.length ≤ (storeVal v h).2 ∧ (storeVal v h).2 < (storeVal v h).1.length ∧
      (∀ i, h.length ≤ i → ∀ nd, (storeVal v h).1[i]? = some nd →
        ∀ a ∈ nodeAddrs nd, h.length ≤ a ∧ a < (storeVal v h).1.length)
  | .scalar s, h => by
    refine ⟨[.scalarN s], rfl, le_refl _, by simp [storeVal], ?_⟩
    intro i hi nd hget a ha
    have hget' : (h ++ [JsNode.scalarN s])[i]? = some nd := hget
    rw [List.getElem?_append_right hi] at hget'
    cases hik : i - h.length with
    | zero =>
      rw [hik] at hget'
      simp only [List.getElem?_cons_zero, Option.some.injEq] at hget'
      subst hget'
      simp [nodeAddrs] at ha
    | succ k =>
      rw [hik] at hget'
      simp at hget'
  | .obj fs, h => by
    obtain ⟨t₁, hpre, hreg, haddrs⟩ := storeFields_spec fs h
    refine ⟨t₁ ++ [.objN (storeFields fs h).2], ?_, ?_, by simp [storeVal], ?_⟩
    · show (storeFields fs h).1 ++ [JsNode.objN (storeFields fs h).2]
        = h ++ (t₁ ++ [JsNode.objN (storeFields fs h).2])
      rw [hpre, List.append_assoc]
    · show h.length ≤ (storeFields fs h).1.length
      rw [hpre]; simp
    · intro i hi nd hget a ha
      have hget' : ((storeFields fs h).1 ++ [JsNode.objN (storeFields fs h).2])[i]?
        = some nd := hget
      have hlen : ((storeVal (Val.obj fs) h).1).length
          = (storeFields fs h).1.length + 1 := by simp [storeVal]
      by_cases hil : i < (storeFields fs h).1.length
      · rw [List.getElem?_append_left hil] at hget'
        obtain ⟨hla, hua⟩ := hreg i hi nd hget' a ha
        exact ⟨hla, by omega⟩
      · push_neg at hil
        rw [List.getElem?_append_right hil] at hget'
        cases hik : i - (storeFields fs h).1.length with
        | zero =>
          rw [hik] at hget'
          simp only [List.getElem?_cons_zero, Option.some.injEq] at hget'
          subst hget'
          simp only [nodeAddrs, List.mem_map] at ha
          obtain ⟨pa, hpa, rfl⟩ := ha
          obtain ⟨hla, hua⟩ := haddrs pa hpa
          exact ⟨hla, by omega⟩
        | succ k =>
          rw [hik] at hget'
          simp at hget'

/-- Allocation spec for storing a list of field values. -/
theorem storeFields_spec : ∀ (fs : List (String × Val)) (h : Heap),
    ∃ t, (storeFields fs h).1 = h ++ t ∧
      (∀ i, h.length ≤ i → ∀ nd, (storeFields fs h).1[i]? = some nd →
        ∀ a ∈ nodeAddrs nd, h.length ≤ a ∧ a < (storeFields fs h).1.length) ∧
      (∀ pa ∈ (storeFields fs h).2, h.length ≤ pa.2 ∧ pa.2 < (storeFields fs h).1.length)
  | [], h => by
    refine ⟨[], by simp [storeFields], ?_, by simp [storeFields]⟩
    intro i hi nd hget
    have hget' : (h : Heap)[i]? = some nd := hget
    rw [List.getElem?_eq_none_iff.mpr hi] at hget'
    exact absurd hget' (by simp)
  | f :: rest, h => by
    obtain ⟨t₁, hpre₁, hroot_lo₁, hroot_hi₁, hreg₁⟩ := storeVal_spec f.2 h
    obtain ⟨t₂, hpre₂, hreg₂, haddrs₂⟩ := storeFields_spec rest (storeVal f.2 h).1
    have h1le : h.length ≤ (storeVal f.2 h).1.length := by rw [hpre₁]; simp
    have h2le : (storeVal f.2 h).1.length ≤ (storeFields rest (storeVal f.2 h).1).1.length := by
      rw [hpre₂]; simp
    have hlen : ((storeFields (f :: rest) h).1).length
        = ((storeFields rest (storeVal f.2 h).1).1).length := rfl
    refine ⟨t₁ ++ t₂, ?_, ?_, ?_⟩
    · show (storeFields rest (storeVal f.2 h).1).1 = h ++ (t₁ ++ t₂)
      rw [hpre₂, hpre₁, List.append_assoc]
    · intro i hi nd hget a ha
      by_cases hil : i < (storeVal f.2 h).1.length
      · have hget' : (storeVal f.2 h).1[i]? = some nd := by
          have : (storeFields rest (storeVal f.2 h).1).1[i]? = (storeVal f.2 h).1[i]? := by
            rw [hpre₂]; exact List.getElem?_append_left hil
          rw [← this]; exact hget
        obtain ⟨hla, hua⟩ := hreg₁ i hi nd hget' a ha
        exact ⟨hla, by omega⟩
      · push_neg at hil
        obtain ⟨hla, hua⟩ := hreg₂ i hil nd hget a ha
        exact ⟨by omega, hua⟩
    · intro pa hpa
      simp only [storeFields, List.mem_cons] at hpa
      rcases hpa with rfl | hpa
      · exact ⟨hroot_lo₁, by
          calc (f.1, (storeVal f.2 h).2).2 < (storeVal f.2 h).1.length := hroot_hi₁
            _ ≤ _ := h2le⟩
      · obtain ⟨hla, hua⟩ := haddrs₂ pa hpa
        exact ⟨by omega, hua⟩
end

mutual
/-- Depth of a value tree, the fuel needed to read it back. -/
def depthVal : Val → Nat
  | .scalar _ => 1
  | .obj fs => depthFields fs + 1

/-- Depth of a list of field values. -/
def depthFields : List (String × Val) → Nat
  | [] => 0
  | f :: rest => max (depthVal f.2) (depthFields rest)
end

/-- Reading inside a closed region of a heap is unaffected by appending
new nodes at the end of the heap. -/
theorem readFuel_append (h t : Heap) (lo : Nat)
    (closed : RegionClosed h (fun i => lo ≤ i ∧ i < h.length)) :
    ∀ f a, lo ≤ a → a < h.length → readFuel f (h ++ t) a = readFuel f h a := by
  intro f a hlo hhi
  exact (readFuel_congr (fun i => lo ≤ i ∧ i < h.length) h (h ++ t)
    (fun i hi => (List.getElem?_append_left hi.2).symm) closed f a ⟨hlo, hhi⟩).symm

/-- The fresh region written by storeVal is closed. -/
theorem storeVal_region_closed (v : Val) (h : Heap) :
    RegionClosed (storeVal v h).1
      (fun i => h.length ≤ i ∧ i < (storeVal v h).1.length) := by
  obtain ⟨t, _, _, _, hreg⟩ := storeVal_spec v h
  intro i hi nd hget a ha
  exact hreg i hi.1 nd hget a ha

/-- The fresh region written by storeFields is closed. -/
theorem storeFields_region_closed (fs : List (String × Val)) (h : Heap) :
    RegionClosed (storeFields fs h).1
      (fun i => h.length ≤ i ∧ i < (storeFields fs h).1.length) := by
  obtain ⟨t, _, hreg, _⟩ := storeFields_spec fs h
  intro i hi nd hget a ha
  exact hreg i hi.1 nd hget a ha

mutual
/-- Roundtrip: reading the root of a freshly stored deep copy with
enough fuel materializes exactly the stored value, so the copy is a
faithful deep clone of the value at store time. -/
theorem readFuel_storeVal : ∀ (v : Val) (h : Heap) (f : Nat), depthVal v ≤ f →
    readFuel f (storeVal v h).1 (storeVal v h).2 = some v
  | .scalar s, h, f, hf => by
    match f, hf with
    | f' + 1, _ =>
      show readFuel (f' + 1) (h ++ [JsNode.scalarN s]) h.length = some (Val.scalar s)
      have hget : (h ++ [JsNode.scalarN s])[h.length]? = some (JsNode.scalarN s) := by
        rw [List.getElem?_append_right (le_refl _)]
        simp
      simp [readFuel, hget]
  | .obj fs, h, f, hf => by
    match f, hf with
    | f' + 1, hf =>
      have hf' : depthFields fs ≤ f' := by
        have : depthVal (Val.obj fs) = depthFields fs + 1 := rfl
        omega
      show readFuel (f' + 1)
        ((storeFields fs h).1 ++ [JsNode.objN (storeFields fs h).2])
        (storeFields fs h).1.length = some (Val.obj fs)
      have hget : ((storeFields fs h).1 ++ [JsNode.objN (storeFields fs h).2])[
          (storeFields fs h).1.length]? = some (JsNode.objN (storeFields fs h).2) := by
        rw [List.getElem?_append_right (le_refl _)]
        simp
      have hfields := readFields_storeFields fs h f' hf'
      obtain ⟨t, hpre, hreg, haddrs⟩ := storeFields_spec fs h
      have hcongr : ∀ p ∈ (storeFields fs h).2,
          readFuel f' ((storeFields fs h).1 ++ [JsNode.objN (storeFields fs h).2]) p.2
            = readFuel f' (storeFields fs h).1 p.2 := by
        intro p hp
        obtain ⟨hlo, hhi⟩ := haddrs p hp
        exact readFuel_append (storeFields fs h).1 [JsNode.objN (storeFields fs h).2]
          h.length (storeFields_region_closed fs h) f' p.2 hlo hhi
      simp only [readFuel, hget]
      rw [mapM_option_congr _ _ (storeFields fs h).2
        (fun p hp => by rw [hcongr p hp]), hfields]
      rfl

/-- Roundtrip for stored field lists: reading every stored field
address back yields exactly the stored fields. -/
theorem readFields_storeFields : ∀ (fs : List (String × Val)) (h : Heap) (f : Nat),
    depthFields fs ≤ f →
    (storeFields fs h).2.mapM
      (fun p => (readFuel f (storeFields fs h).1 p.2).map (fun v => (p.1, v)))
      = some fs
  | [], _, _, _ => rfl
  | g :: rest, h, f, hf => by
    have hfg : depthVal g.2 ≤ f := le_trans (le_max_left _ _) hf
    have hfr : depthFields rest ≤ f := le_trans (le_max_right _ _) hf
    obtain ⟨t₁, hpre₁, hlo₁, hhi₁, hreg₁⟩ := storeVal_spec g.2 h
    obtain ⟨t₂, hpre₂, hreg₂, haddrs₂⟩ := storeFields_spec rest (storeVal g.2 h).1
    have hstep : (storeFields (g :: rest) h).2
        = (g.1, (storeVal g.2 h).2) :: (storeFields rest (storeVal g.2 h).1).2 := rfl
    have hheap : (storeFields (g :: rest) h).1
        = (storeFields rest (storeVal g.2 h).1).1 := rfl
    rw [hstep, hheap, List.mapM_cons]
    have hhead : readFuel f (storeFields rest (storeVal g.2 h).1).1 (storeVal g.2 h).2
        = some g.2 := by
      have hext : readFuel f (storeFields rest (storeVal g.2 h).1).1 (storeVal g.2 h).2
          = readFuel f (storeVal g.2 h).1 (storeVal g.2 h).2 := by
        rw [hpre₂]
        exact readFuel_append (storeVal g.2 h).1 t₂ h.length
          (storeVal_region_closed g.2 h) f (storeVal g.2 h).2 hlo₁ hhi₁
      rw [hext]
      exact readFuel_storeVal g.2 h f hfg
    rw [hhead]
    rw [readFields_storeFields rest (storeVal g.2 h).1 f hfr]
    rfl
end

/-- C1: For every App and transport server, the HandleRequest
constructed from them (part_000 lines 217-221) holds a deep clone of
the App's plugin registry and config taken at construction time. The
App's object graph is materialized as the value v, living in the
closed heap h with root address a; constructing a HandleRequest
performs storeVal (the lodash cloneDeep of the constructor), so two
requests yield fresh roots r1 and r2. Then: the clone reads back as
exactly the value at construction time (faithfulness, both requests);
mutating any address of either request's cloned region (at or above
the App region) leaves the App's state unchanged; mutating the App's
state or request 2's region leaves request 1's clone unchanged; and
mutating the App's state or request 1's region leaves request 2's
clone unchanged (cross-request isolation). -/
theorem handleRequest_clone_isolation (v w : Val) (h : Heap) (a : Nat)
    (hc : heapClosedB h = true) (ha : a < h.length) :
    (∀ f, depthVal v ≤ f →
      readFuel f (storeVal v h).1 (storeVal v h).2 = some v)
    ∧ (∀ f, depthVal w ≤ f →
      readFuel f (storeVal w (storeVal v h).1).1 (storeVal w (storeVal v h).1).2 = some w)
    ∧ (∀ f j nd, h.length ≤ j →
      readFuel f (writeNode (storeVal w (storeVal v h).1).1 j nd) a
        = readFuel f (storeVal w (storeVal v h).1).1 a)
    ∧ (∀ f j nd, j < h.length ∨ (storeVal v h).1.length ≤ j →
      readFuel f (writeNode (storeVal w (storeVal v h).1).1 j nd) (storeVal v h).2
        = readFuel f (storeVal w (storeVal v h).1).1 (storeVal v h).2)
    ∧ (∀ f j nd, j < (storeVal v h).1.length →
      readFuel f (writeNode (storeVal w (storeVal v h).1).1 j nd) (storeVal w (storeVal v h).1).2
        = readFuel f (storeVal w (storeVal v h).1).1 (storeVal w (storeVal v h).1).2) := by
  obtain ⟨t₁, hpre₁, hlo₁, hhi₁, hreg₁⟩ := storeVal_spec v h
  obtain ⟨t₂, hpre₂, hlo₂, hhi₂, hreg₂⟩ := storeVal_spec w (storeVal v h).1
  have hlen₁ : h.length ≤ (storeVal v h).1.length := by rw [hpre₁]; simp
  have hlen₂ : (storeVal v h).1.length ≤ (storeVal w (storeVal v h).1).1.length := by
    rw [hpre₂]; simp
  have hh2_low : ∀ i, i < h.length →
      (storeVal w (storeVal v h).1).1[i]? = (h : Heap)[i]? := by
    intro i hi
    rw [hpre₂, List.getElem?_append_left (lt_of_lt_of_le hi hlen₁), hpre₁,
      List.getElem?_append_left hi]
  have hh2_mid : ∀ i, i < (storeVal v h).1.length →
      (storeVal w (storeVal v h).1).1[i]? = (storeVal v h).1[i]? := by
    intro i hi
    rw [hpre₂, List.getElem?_append_left hi]
  refine ⟨readFuel_storeVal v h, readFuel_storeVal w (storeVal v h).1, ?_, ?_, ?_⟩
  · -- mutation at or above the App region leaves the App root unchanged
    intro f j nd hj
    refine (readFuel_congr (fun i => i < h.length) _ _ ?_ ?_ f a ha).symm
    · intro i hi
      show (storeVal w (storeVal v h).1).1[i]?
        = ((storeVal w (storeVal v h).1).1.set j nd)[i]?
      rw [List.getElem?_set_ne (by omega)]
    · intro i hi nd' hget a' ha'
      rw [hh2_low i hi] at hget
      exact regionClosed_of_heapClosedB hc i hi nd' hget a' ha'
  · -- mutation outside request 1's region leaves request 1's root unchanged
    intro f j nd hj
    refine (readFuel_congr (fun i => h.length ≤ i ∧ i < (storeVal v h).1.length)
      _ _ ?_ ?_ f (storeVal v h).2 ⟨hlo₁, hhi₁⟩).symm
    · intro i hi
      show (storeVal w (storeVal v h).1).1[i]?
        = ((storeVal w (storeVal v h).1).1.set j nd)[i]?
      rw [List.getElem?_set_ne (by omega)]
    · intro i hi nd' hget a' ha'
      rw [hh2_mid i hi.2] at hget
      exact hreg₁ i hi.1 nd' hget a' ha'
  · -- mutation outside request 2's region leaves request 2's root unchanged
    intro f j nd hj
    refine (readFuel_congr
      (fun i => (storeVal v h).1.length ≤ i ∧ i < (storeVal w (storeVal v h).1).1.length)
      _ _ ?_ ?_ f (storeVal w (storeVal v h).1).2 ⟨hlo₂, hhi₂⟩).symm
    · intro i hi
      show (storeVal w (storeVal v h).1).1[i]?
        = ((storeVal w (storeVal v h).1).1.set j nd)[i]?
      rw [List.getElem?_set_ne (by omega)]
    · intro i hi nd' hget a' ha'
      exact hreg₂ i hi.1 nd' hget a' ha'

/-- Concrete App object graph used by the isolation witness. -/
def appValW : Val := .obj [("x", .scalar "1")]

/-- Concrete pre-existing heap used by the isolation witness. -/
def appHeapW : Heap := [.scalarN "app"]

/-- Witness for C1 at a concrete App graph: heap [scalarN app] with
root 0, two clones of the object x=1, mutations at addresses 3, 0 and
2 respectively. -/
theorem handleRequest_clone_isolation_witness :
    readFuel 2 (storeVal appValW appHeapW).1 (storeVal appValW appHeapW).2 = some appValW
    ∧ readFuel 3 (writeNode (storeVal appValW (storeVal appValW appHeapW).1).1 3
        (JsNode.scalarN "mut")) 0
      = readFuel 3 (storeVal appValW (storeVal appValW appHeapW).1).1 0
    ∧ readFuel 3 (writeNode (storeVal appValW (storeVal appValW appHeapW).1).1 0
        (JsNode.scalarN "mut")) (storeVal appValW appHeapW).2
      = readFuel 3 (storeVal appValW (storeVal appValW appHeapW).1).1
        (storeVal appValW appHeapW).2
    ∧ readFuel 3 (writeNode (storeVal appValW (storeVal appValW appHeapW).1).1 2
        (JsNode.scalarN "mut")) (storeVal appValW (storeVal appValW appHeapW).1).2
      = readFuel 3 (storeVal appValW (storeVal appValW appHeapW).1).1
        (storeVal appValW (storeVal appValW appHeapW).1).2 := by
  have H := handleRequest_clone_isolation appValW appValW appHeapW 0 (by decide) (by decide)
  exact ⟨H.1 2 (by decide), H.2.2.1 3 3 (JsNode.scalarN "mut") (by decide),
    H.2.2.2.1 3 0 (JsNode.scalarN "mut") (Or.inl (by decide)),
    H.2.2.2.2 3 2 (JsNode.scalarN "mut") (by decide)⟩

/-! ## Part 2: lodash merge on JSON-like values, for configure() -/

/-- JSON-like configuration value, the shape of AppConfig. The undef
constructor models a JavaScript undefined property value, which the
configure body produces for the components and plugins keys
(part_000 line 96). -/
inductive JVal where
  | undef
  | nullV
  | num : Int → JVal
  | str : String → JVal
  | boolV : Bool → JVal
  | arr : List JVal → JVal
  | obj : List (String × JVal) → JVal
deriving Repr

mutual
/-- Boolean equality on JVal. -/
def beqJ : JVal → JVal → Bool
  | .undef, .undef => true
  | .nullV, .nullV => true
  | .num a, .num b => a == b
  | .str a, .str b => a == b
  | .boolV a, .boolV b => a == b
  | .arr a, .arr b => beqArrJ a b
  | .obj a, .obj b => beqFieldsJ a b
  | _, _ => false

/-- Boolean equality on JVal lists. -/
def beqArrJ : List JVal → List JVal → Bool
  | [], [] => true
  | a :: as, b :: bs => beqJ a b && beqArrJ as bs
  | _, _ => false

/-- Boolean equality on JVal field lists. -/
def beqFieldsJ : List (String × JVal) → List (String × JVal) → Bool
  | [], [] => true
  | a :: as, b :: bs => (a.1 == b.1) && beqJ a.2 b.2 && beqFieldsJ as bs
  | _, _ => false
end

mutual
theorem beqJ_iff : ∀ (a b : JVal), beqJ a b = true ↔ a = b
  | .undef, b => by cases b <;> simp [beqJ]
  | .nullV, b => by cases b <;> simp [beqJ]
  | .num x, b => by cases b <;> simp [beqJ]
  | .str x, b => by cases b <;> simp [beqJ]
  | .boolV x, b => by cases b <;> simp [beqJ]
  | .arr xs, b => by
    cases b <;> simp [beqJ]
    exact beqArrJ_iff xs _
  | .obj xs, b => by
    cases b <;> simp [beqJ]
    exact beqFieldsJ_iff xs _

theorem beqArrJ_iff : ∀ (as bs : List JVal), beqArrJ as bs = true ↔ as = bs
  | [], bs => by cases bs <;> simp [beqArrJ]
  | a :: as, [] => by simp [beqArrJ]
  | a :: as, b :: bs => by
    simp [beqArrJ, beqJ_iff a b, beqArrJ_iff as bs]

theorem beqFieldsJ_iff : ∀ (as bs : List (String × JVal)),
    beqFieldsJ as bs = true ↔ as = bs
  | [], bs => by cases bs <;> simp [beqFieldsJ]
  | a :: as, [] => by simp [beqFieldsJ]
  | a :: as, b :: bs => by
    simp [beqFieldsJ, beqJ_iff a.2 b.2, beqFieldsJ_iff as bs, Prod.ext_iff]
end

instance : DecidableEq JVal := fun a b => decidable_of_iff _ (beqJ_iff a b)

mutual
/-- Models lodash merge (imported by App, part_000 line 1; not vendored
in this repository), per its documented semantics: plain objects are
merged recursively key by key, arrays are merged recursively index by
index, any other source value overwrites the destination, and a source
value of undefined is skipped when a destination value exists. -/
def mergeJ : JVal → JVal → JVal
  | d, .undef => d
  | .obj dfs, .obj sfs => .obj (mergeFields dfs sfs)
  | .arr ds, .arr ss => .arr (mergeArr ds ss)
  | _, s => s
termination_by _d s => (sizeOf s, 2, 0)

/-- Folds every source field into the destination field list in source
order, as lodash baseMerge iterates the source keys. -/
def mergeFields : List (String × JVal) → List (String × JVal) → List (String × JVal)
  | dfs, [] => dfs
  | dfs, (k, sv) :: rest => mergeFields (assignField dfs k sv) rest
termination_by _dfs sfs => (sizeOf sfs, 0, 0)

/-- Assigns one source field: an existing destination key is merged in
place, a new key is appended (also when the source value is undefined,
matching lodash assignMergeValue). -/
def assignField : List (String × JVal) → String → JVal → List (String × JVal)
  | [], k, sv => [(k, sv)]
  | (dk, dv) :: drest, k, sv =>
    if dk = k then (dk, mergeJ dv sv) :: drest
    else (dk, dv) :: assignField drest k sv
termination_by dfs _k sv => (sizeOf sv, 3, sizeOf dfs)

/-- Index-wise array merge: common indices are merged recursively, the
longer list's tail is kept. -/
def mergeArr : List JVal → List JVal → List JVal
  | ds, [] => ds
  | [], s :: ss => s :: mergeArr [] ss
  | d :: ds, s :: ss => mergeJ d s :: mergeArr ds ss
termination_by ds ss => (sizeOf ss, 0, sizeOf ds)
end

/-- Sets a key of a field list to a value: an existing key is replaced
in place, a missing key is appended, as a JavaScript object spread
does. -/
def setField : List (String × JVal) → String → JVal → List (String × JVal)
  | [], k, v => [(k, v)]
  | (dk, dv) :: drest, k, v =>
    if dk = k then (dk, v) :: drest
    else (dk, dv) :: setField drest k v

/-- Models App.configure (part_000 lines 95-99): the supplied partial
config, with its components and plugins keys set to undefined by the
spread, is deep-merged by lodash merge into the current config. -/
def configure (cfg : List (String × JVal)) (c : List (String × JVal)) :
    List (String × JVal) :=
  mergeFields cfg (setField (setField c "components" .undef) "plugins" .undef)

mutual
/-- Second definition, following the words of the specification for
configure rather than the source: arrays are replaced (not merged
element-wise), nested objects are recursively merged, scalar values
are overwritten. Used only to compare with the lodash-based mergeJ
that the source actually calls. -/
def specMergeJ : JVal → JVal → JVal
  | d, .undef => d
  | .obj dfs, .obj sfs => .obj (specMergeFields dfs sfs)
  | _, s => s
termination_by _d s => (sizeOf s, 2, 0)

/-- Field folding for the specification-words merge. -/
def specMergeFields : List (String × JVal) → List (String × JVal) → List (String × JVal)
  | dfs, [] => dfs
  | dfs, (k, sv) :: rest => specMergeFields (specAssignField dfs k sv) rest
termination_by _dfs sfs => (sizeOf sfs, 0, 0)

/-- Field assignment for the specification-words merge. -/
def specAssignField : List (String × JVal) → String → JVal → List (String × JVal)
  | [], k, sv => [(k, sv)]
  | (dk, dv) :: drest, k, sv =>
    if dk = k then (dk, specMergeJ dv sv) :: drest
    else (dk, dv) :: specAssignField drest k sv
termination_by dfs _k sv => (sizeOf sv, 3, sizeOf dfs)
end

/-- Configure under the specification-words merge semantics. -/
def specConfigure (cfg : List (String × JVal)) (c : List (String × JVal)) :
    List (String × JVal) :=
  specMergeFields cfg (setField (setField c "components" .undef) "plugins" .undef)

/-- Concrete config with an array value, for the C6 counterexample. -/
def cfgArrW : List (String × JVal) :=
  [("routing", .obj [("intentsToSkipUnhandled", .arr [.str "a", .str "b"])])]

/-- Concrete partial config updating that array, for the C6 counterexample. -/
def updArrW : List (String × JVal) :=
  [("routing", .obj [("intentsToSkipUnhandled", .arr [.str "c"])])]


/-- C6 counterexample: the claim says configure replaces arrays, but
the source calls lodash merge, which merges arrays index by index.
Configuring a config whose routing.intentsToSkipUnhandled is the array
of a and b with a partial config carrying the one-element array of c
yields the array of c and b, not the array of c that replacement (the
specification-words semantics specConfigure) would give. -/
theorem configure_arrays_replaced_counterexample :
    configure cfgArrW updArrW
      = [("routing", .obj [("intentsToSkipUnhandled", .arr [.str "c", .str "b"])]),
         ("components", .undef), ("plugins", .undef)]
    ∧ specConfigure cfgArrW updArrW
      = [("routing", .obj [("intentsToSkipUnhandled", .arr [.str "c"])]),
         ("components", .undef), ("plugins", .undef)]
    ∧ configure cfgArrW updArrW ≠ specConfigure cfgArrW updArrW := by
  refine ⟨?_, ?_, ?_⟩
  · simp [configure, cfgArrW, updArrW, setField, mergeFields, assignField, mergeJ, mergeArr]
  · simp [specConfigure, cfgArrW, updArrW, setField, specMergeFields, specAssignField,
      specMergeJ]
  · intro h
    rw [show configure cfgArrW updArrW
        = [("routing", JVal.obj [("intentsToSkipUnhandled", JVal.arr [.str "c", .str "b"])]),
           ("components", JVal.undef), ("plugins", JVal.undef)] by
      simp [configure, cfgArrW, updArrW, setField, mergeFields, assignField, mergeJ, mergeArr],
      show specConfigure cfgArrW updArrW
        = [("routing", JVal.obj [("intentsToSkipUnhandled", JVal.arr [.str "c"])]),
           ("components", JVal.undef), ("plugins", JVal.undef)] by
      simp [specConfigure, cfgArrW, updArrW, setField, specMergeFields, specAssignField,
        specMergeJ]] at h
    exact absurd h (by decide)

/-- Index-wise merged arrays keep the longer operand's tail: the
result length is the maximum of the two lengths, never the source
length alone as replacement semantics would give. -/
theorem mergeArr_length : ∀ (ds ss : List JVal),
    (mergeArr ds ss).length = max ds.length ss.length := by
  intro ds ss
  induction ss generalizing ds with
  | nil =>
    simp [mergeArr]
  | cons s ss ih =>
    cases ds with
    | nil =>
      simp only [mergeArr, List.length_cons, ih []]
      simp
    | cons d ds =>
      simp only [mergeArr, List.length_cons, ih ds]
      omega

/-- C6 amended: configure(config) deep-merges the supplied partial
config into the current config through lodash merge, whose semantics
for every key are: arrays are merged index by index (the source
element overwrites or merges into the same index, a longer
destination tail is preserved, so the result length is the maximum of
both lengths), nested objects are recursively merged, and scalar
values are overwritten; configure of a x 1 followed by configure of
a y 2 yields a config whose a key holds both x 1 and y 2. -/
theorem configure_deep_merge_amended :
    configure (configure [] [("a", .obj [("x", .num 1)])]) [("a", .obj [("y", .num 2)])]
      = [("a", .obj [("x", .num 1), ("y", .num 2)]),
         ("components", .undef), ("plugins", .undef)]
    ∧ (∀ ds ss : List JVal, (mergeArr ds ss).length = max ds.length ss.length)
    ∧ (∀ d : JVal, ∀ n : Int, mergeJ d (.num n) = .num n)
    ∧ (∀ d : JVal, ∀ s : String, mergeJ d (.str s) = .str s)
    ∧ mergeJ (.arr [.str "a", .str "b"]) (.arr [.str "c"])
      = .arr [.str "c", .str "b"] := by
  refine ⟨?_, mergeArr_length, ?_, ?_, ?_⟩
  · simp [configure, setField, mergeFields, assignField, mergeJ]
  · intro d n; cases d <;> simp [mergeJ]
  · intro d s; cases d <;> simp [mergeJ]
  · simp [mergeJ, mergeArr]

/-! ## Part 3: operational model of the App request lifecycle -/

/-- Raw inbound payload handed over by the transport (Server.getRequestObject). -/
abbrev RequestObject := String

/-- Outbound response payload (the jovo response field). -/
abbrev ResponsePayload := String

/-- Errors of the model. matchingPlatformNotFound models the
MatchingPlatformNotFoundError thrown at part_000 line 176; hookError
models any rejection coming from a plugin hook or stage handler. -/
inductive JError where
  | matchingPlatformNotFound : RequestObject → JError
  | hookError : String → JError
deriving Repr, DecidableEq

/-- Conversational state object created per request by the bound
platform (createJovoInstance); carries the response payload, initially
absent. -/
structure JovoState where
  response : Option ResponsePayload
deriving Repr, DecidableEq

/-- Identifier of a registered stage handler; the handler bodies live
in a fixed environment, as JavaScript closures do. -/
abbrev MwId := Nat

/-- Contents of the request's MiddlewareCollection: stage names each
carrying the ordered list of registered handler identifiers. -/
abbrev MwColl := List (String × List MwId)

/-- State a stage handler can read and mutate: the request's live
middleware collection (so a handler can clear it) and the
conversational state object. -/
structure HRState where
  mwc : MwColl
  jovo : JovoState
deriving Repr, DecidableEq

/-- A stage handler: mutates the request state or throws. -/
abbrev HandlerFn := HRState → Except JError HRState

/-- The fixed pool of handler bodies, indexed by identifier. -/
abbrev HandlerEnv := MwId → HandlerFn

/-- A registered plugin of the model. The isPlatform flag models the
instanceof Platform check of the platforms getter (part_000 lines
91-93 and 223-225); isRequestRelated and createJovoInstance model the
platform-adapter interface used by handle; the mount, dismount and
init fields model the outcomes of the per-plugin lifecycle hooks. -/
structure PluginM where
  name : String
  isPlatform : Bool
  isRequestRelated : RequestObject → Bool
  createJovoInstance : RequestObject → JovoState
  mountResult : Except JError Unit
  dismountResult : Except JError Unit
  initResult : Except JError Unit

/-- Model state of the App: the registered plugins in registration
order, the request middleware collection contents, the handler pool,
the i18n initialization outcome, the initialized flag, and whether an
error callback was registered through onError. -/
structure AppM where
  plugins : List PluginM
  mwc : MwColl
  env : HandlerEnv
  i18nResult : Except JError Unit
  initialized : Bool
  hasErrorCallback : Bool

/-- Model of the transport server handed to handle. -/
structure ServerM where
  requestObject : RequestObject

/-- Observable events of one model run. -/
inductive Event where
  | mounted : String → Event
  | dismounted : String → Event
  | boundPlatform : String → Event
  | ranHandler : String → MwId → Event
  | wroteResponse : ResponsePayload → Event
  | calledErrorCallback : JError → Event
  | i18nInitialized : Event
  | pluginInitialized : String → Event
deriving Repr, DecidableEq

/-- Final outcome of initialize or handle as seen by the direct caller. -/
inductive Outcome where
  | ok
  | thrown : JError → Outcome
deriving Repr, DecidableEq

/-- The fixed RIDR stage catalog, APP_MIDDLEWARES of part_000 lines
28-44, in source order. -/
def APP_MIDDLEWARES : List String :=
  ["request.start", "request", "request.end",
   "interpretation.start", "interpretation.asr", "interpretation.nlu",
   "interpretation.end",
   "dialogue.start", "dialogue.router", "dialogue.logic", "dialogue.end",
   "response.start", "response.output", "response.tts", "response.end"]

/-- Models App.initializeMiddlewareCollection (part_000 lines 105-107):
a fresh MiddlewareCollection over exactly the APP_MIDDLEWARES stage
names, each with no handlers yet. -/
def initializeMiddlewareCollection : MwColl :=
  APP_MIDDLEWARES.map (fun n => (n, []))

/-- Stage names currently present in a collection (the names getter of
MiddlewareCollection). Modelled from the spec: MiddlewareCollection is
not part of the given sources. -/
def mwcNames (mwc : MwColl) : List String := mwc.map Prod.fst

/-- Handler list of a stage, if the stage is present. Modelled from
the spec section 4.1. -/
def mwcGet (mwc : MwColl) (name : String) : Option (List MwId) :=
  (mwc.find? (fun p => p.1 = name)).map Prod.snd

/-- Models MiddlewareCollection.remove: drops the given stages and
their handler lists. Modelled from the spec sections 2 and 4.1. -/
def mwcRemove (mwc : MwColl) (names : List String) : MwColl :=
  mwc.filter (fun p => ¬ names.contains p.1)

/-- Models HandleRequest.stopMiddlewareExecution (part_000 lines
247-249): removes every stage of the request's collection, by name. -/
def stopMiddlewareExecution (mwc : MwColl) : MwColl :=
  mwcRemove mwc (mwcNames mwc)

/-- Runs the handlers of one stage sequentially, threading the request
state, stopping at the first throwing handler. Modelled from the spec
section 4.1. -/
def runHandlers (env : HandlerEnv) (stage : String) :
    List MwId → HRState → List Event × Except JError HRState
  | [], st => ([], .ok st)
  | hid :: rest, st =>
    match env hid st with
    | .error e => ([.ranHandler stage hid], .error e)
    | .ok st' =>
      let r := runHandlers env stage rest st'
      (.ranHandler stage hid :: r.1, r.2)

/-- Models MiddlewareCollection.run over an ordered stage-name list:
for each stage, the handlers registered at that moment in the live
collection run sequentially; a throwing handler aborts the remaining
stages. Modelled from the spec section 4.1. -/
def runStages (env : HandlerEnv) :
    List String → HRState → List Event × Except JError HRState
  | [], st => ([], .ok st)
  | stg :: rest, st =>
    match runHandlers env stg ((mwcGet st.mwc stg).getD []) st with
    | (evs, .error e) => (evs, .error e)
    | (evs, .ok st') =>
      let r := runStages env rest st'
      (evs ++ r.1, r.2)

/-- Models Extensible.mountPlugins: every plugin's mount hook runs in
registration order, failing fast. Modelled from the spec section 4.2. -/
def mountPlugins : List PluginM → List Event × Except JError Unit
  | [] => ([], .ok ())
  | p :: rest =>
    match p.mountResult with
    | .error e => ([], .error e)
    | .ok _ =>
      let r := mountPlugins rest
      (.mounted p.name :: r.1, r.2)

/-- Models Extensible.dismountPlugins: every plugin's dismount hook
runs in registration order, failing fast. Modelled from the spec
section 4.2. -/
def dismountPlugins : List PluginM → List Event × Except JError Unit
  | [] => ([], .ok ())
  | p :: rest =>
    match p.dismountResult with
    | .error e => ([], .error e)
    | .ok _ =>
      let r := dismountPlugins rest
      (.dismounted p.name :: r.1, r.2)

/-- Models Extensible.initializePlugins: each plugin's initialize hook
runs once, in registration order, propagating the first failure and
skipping the rest. Modelled from the spec section 4.2. -/
def initializePlugins : List PluginM → List Event × Except JError Unit
  | [] => ([], .ok ())
  | p :: rest =>
    match p.initResult with
    | .error e => ([], .error e)
    | .ok _ =>
      let r := initializePlugins rest
      (.pluginInitialized p.name :: r.1, r.2)

/-- Models the platforms getter (part_000 lines 91-93, 223-225):
plugins that are Platform instances, in registration order. -/
def platforms (plugins : List PluginM) : List PluginM :=
  plugins.filter (fun p => p.isPlatform)

/-- Models App.handleError (part_000 lines 197-204): when an error
callback was registered through onError it is invoked with the error,
otherwise the error is rethrown to the direct caller. -/
def handleError (hasCallback : Bool) (e : JError) : List Event × Outcome :=
  if hasCallback then ([.calledErrorCallback e], .ok) else ([], .thrown e)

/-- Models App.handle (part_000 lines 167-195): construct the
HandleRequest, mount the plugins, bind the first registered platform
whose isRequestRelated accepts the raw request object (throwing
MatchingPlatformNotFoundError if none), create the conversational
state object, run the full RIDR pipeline, dismount, and write the
response through the server only when one is present; every failure on
the way is caught and routed through handleError. -/
def handle (app : AppM) (server : ServerM) : List Event × Outcome :=
  match mountPlugins app.plugins with
  | (evs, .error e) =>
    let r := handleError app.hasErrorCallback e
    (evs ++ r.1, r.2)
  | (evs, .ok _) =>
    match (platforms app.plugins).find? (fun p => p.isRequestRelated server.requestObject) with
    | none =>
      let r := handleError app.hasErrorCallback
        (.matchingPlatformNotFound server.requestObject)
      (evs ++ r.1, r.2)
    | some p =>
      let st : HRState := ⟨app.mwc, p.createJovoInstance server.requestObject⟩
      match runStages app.env APP_MIDDLEWARES st with
      | (evs₂, .error e) =>
        let r := handleError app.hasErrorCallback e
        (evs ++ .boundPlatform p.name :: evs₂ ++ r.1, r.2)
      | (evs₂, .ok st') =>
        match dismountPlugins app.plugins with
        | (evs₃, .error e) =>
          let r := handleError app.hasErrorCallback e
          (evs ++ .boundPlatform p.name :: evs₂ ++ evs₃ ++ r.1, r.2)
        | (evs₃, .ok _) =>
          match st'.jovo.response with
          | none => (evs ++ .boundPlatform p.name :: evs₂ ++ evs₃, .ok)
          | some resp =>
            (evs ++ .boundPlatform p.name :: evs₂ ++ evs₃ ++ [.wroteResponse resp], .ok)

/-- Models App.initialize (part_000 lines 127-138): a no-op once
initialized; otherwise i18n initialization then plugin initialization,
setting the initialized flag only when both succeed, and routing any
failure through handleError. -/
def initializeApp (s : AppM) : AppM × List Event × Outcome :=
  if s.initialized then (s, [], .ok)
  else
    match s.i18nResult with
    | .error e =>
      let r := handleError s.hasErrorCallback e
      (s, r.1, r.2)
    | .ok _ =>
      match initializePlugins s.plugins with
      | (evs, .error e) =>
        let r := handleError s.hasErrorCallback e
        (s, .i18nInitialized :: (evs ++ r.1), r.2)
      | (evs, .ok _) =>
        ({ s with initialized := true }, .i18nInitialized :: evs, .ok)

theorem mountPlugins_ok : ∀ (ps : List PluginM),
    (∀ p ∈ ps, p.mountResult = .ok ()) →
    mountPlugins ps = (ps.map (fun p => .mounted p.name), .ok ()) := by
  intro ps h
  induction ps with
  | nil => rfl
  | cons p rest ih =>
    have hp : p.mountResult = .ok () := h p (by simp)
    simp only [mountPlugins, hp, ih (fun q hq => h q (by simp [hq])), List.map_cons]

theorem mountPlugins_events : ∀ (ps : List PluginM),
    ∀ ev ∈ (mountPlugins ps).1, ∃ n, ev = .mounted n := by
  intro ps
  induction ps with
  | nil => intro ev hev; simp [mountPlugins] at hev
  | cons p rest ih =>
    intro ev hev
    simp only [mountPlugins] at hev
    cases hp : p.mountResult with
    | error e => rw [hp] at hev; simp at hev
    | ok u =>
      rw [hp] at hev
      simp at hev
      rcases hev with rfl | hev
      · exact ⟨p.name, rfl⟩
      · exact ih ev hev

theorem dismountPlugins_ok : ∀ (ps : List PluginM),
    (∀ p ∈ ps, p.dismountResult = .ok ()) →
    dismountPlugins ps = (ps.map (fun p => .dismounted p.name), .ok ()) := by
  intro ps h
  induction ps with
  | nil => rfl
  | cons p rest ih =>
    have hp : p.dismountResult = .ok () := h p (by simp)
    simp only [dismountPlugins, hp, ih (fun q hq => h q (by simp [hq])), List.map_cons]

theorem initializePlugins_ok : ∀ (ps : List PluginM),
    (∀ p ∈ ps, p.initResult = .ok ()) →
    initializePlugins ps = (ps.map (fun p => .pluginInitialized p.name), .ok ()) := by
  intro ps h
  induction ps with
  | nil => rfl
  | cons p rest ih =>
    have hp : p.initResult = .ok () := h p (by simp)
    simp only [initializePlugins, hp, ih (fun q hq => h q (by simp [hq])), List.map_cons]

theorem runHandlers_events : ∀ (env : HandlerEnv) (stage : String) (ids : List MwId)
    (st : HRState), ∀ ev ∈ (runHandlers env stage ids st).1,
    ∃ hid, ev = .ranHandler stage hid := by
  intro env stage ids
  induction ids with
  | nil => intro st ev hev; simp [runHandlers] at hev
  | cons hid rest ih =>
    intro st ev hev
    simp only [runHandlers] at hev
    cases henv : env hid st with
    | error e =>
      rw [henv] at hev
      simp at hev
      exact ⟨hid, hev⟩
    | ok st' =>
      rw [henv] at hev
      simp at hev
      rcases hev with rfl | hev
      · exact ⟨hid, rfl⟩
      · exact ih st' ev hev

theorem runStages_events : ∀ (env : HandlerEnv) (stages : List String) (st : HRState),
    ∀ ev ∈ (runStages env stages st).1, ∃ stg hid, ev = .ranHandler stg hid := by
  intro env stages
  induction stages with
  | nil => intro st ev hev; simp [runStages] at hev
  | cons stg rest ih =>
    intro st ev hev
    simp only [runStages] at hev
    cases hrh : runHandlers env stg ((mwcGet st.mwc stg).getD []) st with
    | mk evs r =>
      cases r with
      | error e =>
        rw [hrh] at hev
        simp at hev
        obtain ⟨hid, rfl⟩ := runHandlers_events env stg _ st ev (by rw [hrh]; exact hev)
        exact ⟨stg, hid, rfl⟩
      | ok st' =>
        rw [hrh] at hev
        simp at hev
        rcases hev with hev | hev
        · obtain ⟨hid, rfl⟩ := runHandlers_events env stg _ st ev (by rw [hrh]; exact hev)
          exact ⟨stg, hid, rfl⟩
        · exact ih st' ev hev

theorem find?_first {α : Type} (p : α → Bool) : ∀ (l : List α) (a : α),
    l.find? p = some a →
    p a = true ∧ ∃ l₁ l₂, l = l₁ ++ a :: l₂ ∧ ∀ q ∈ l₁, p q = false := by
  intro l
  induction l with
  | nil => intro a h; simp at h
  | cons x xs ih =>
    intro a h
    by_cases hx : p x = true
    · rw [List.find?_cons_of_pos _ hx] at h
      cases h
      exact ⟨hx, [], xs, rfl, by simp⟩
    · rw [List.find?_cons_of_neg _ (by simpa using hx)] at h
      obtain ⟨hpa, l₁, l₂, rfl, hneg⟩ := ih a h
      refine ⟨hpa, x :: l₁, l₂, rfl, ?_⟩
      intro q hq
      rcases hq with _ | hq
      · simpa using hx
      · exact hneg q (by assumption)

theorem runStages_nil (env : HandlerEnv) (st : HRState) :
    runStages env [] st = ([], .ok st) := rfl

theorem runStages_cons_err (env : HandlerEnv) (stg : String) (rest : List String)
    (st : HRState) (evs₁ : List Event) (e : JError)
    (h : runHandlers env stg ((mwcGet st.mwc stg).getD []) st = (evs₁, .error e)) :
    runStages env (stg :: rest) st = (evs₁, .error e) := by
  unfold runStages
  rw [h]

theorem runStages_cons_ok (env : HandlerEnv) (stg : String) (rest : List String)
    (st : HRState) (evs₁ : List Event) (st₁ : HRState)
    (h : runHandlers env stg ((mwcGet st.mwc stg).getD []) st = (evs₁, .ok st₁)) :
    runStages env (stg :: rest) st
      = (evs₁ ++ (runStages env rest st₁).1, (runStages env rest st₁).2) := by
  conv_lhs => unfold runStages
  rw [h]

theorem handle_mount_err (app : AppM) (server : ServerM) (evs : List Event) (e : JError)
    (h : mountPlugins app.plugins = (evs, .error e)) :
    handle app server
      = (evs ++ (handleError app.hasErrorCallback e).1,
         (handleError app.hasErrorCallback e).2) := by
  unfold handle
  rw [h]

theorem handle_no_platform (app : AppM) (server : ServerM) (evs : List Event) (u : Unit)
    (hm : mountPlugins app.plugins = (evs, .ok u))
    (hf : (platforms app.plugins).find? (fun p => p.isRequestRelated server.requestObject)
      = none) :
    handle app server
      = (evs ++ (handleError app.hasErrorCallback
            (.matchingPlatformNotFound server.requestObject)).1,
         (handleError app.hasErrorCallback
            (.matchingPlatformNotFound server.requestObject)).2) := by
  unfold handle
  rw [hm]
  dsimp only
  rw [hf]

theorem handle_run_err (app : AppM) (server : ServerM) (evs : List Event) (u : Unit)
    (p : PluginM) (evs₂ : List Event) (e : JError)
    (hm : mountPlugins app.plugins = (evs, .ok u))
    (hf : (platforms app.plugins).find? (fun p => p.isRequestRelated server.requestObject)
      = some p)
    (hr : runStages app.env APP_MIDDLEWARES
        ⟨app.mwc, p.createJovoInstance server.requestObject⟩ = (evs₂, .error e)) :
    handle app server
      = (evs ++ .boundPlatform p.name :: evs₂ ++ (handleError app.hasErrorCallback e).1,
         (handleError app.hasErrorCallback e).2) := by
  unfold handle
  rw [hm]
  dsimp only
  rw [hf]
  dsimp only
  rw [hr]

theorem handle_dismount_err (app : AppM) (server : ServerM) (evs : List Event) (u : Unit)
    (p : PluginM) (evs₂ : List Event) (st' : HRState) (evs₃ : List Event) (e : JError)
    (hm : mountPlugins app.plugins = (evs, .ok u))
    (hf : (platforms app.plugins).find? (fun p => p.isRequestRelated server.requestObject)
      = some p)
    (hr : runStages app.env APP_MIDDLEWARES
        ⟨app.mwc, p.createJovoInstance server.requestObject⟩ = (evs₂, .ok st'))
    (hd : dismountPlugins app.plugins = (evs₃, .error e)) :
    handle app server
      = (evs ++ .boundPlatform p.name :: evs₂ ++ evs₃
          ++ (handleError app.hasErrorCallback e).1,
         (handleError app.hasErrorCallback e).2) := by
  unfold handle
  rw [hm]
  dsimp only
  rw [hf]
  dsimp only
  rw [hr]
  dsimp only
  rw [hd]

/-- Response events written at the end of a successful pipeline. -/
def respEvents : Option ResponsePayload → List Event
  | none => []
  | some r => [.wroteResponse r]

theorem handle_success (app : AppM) (server : ServerM) (evs : List Event) (u : Unit)
    (p : PluginM) (evs₂ : List Event) (st' : HRState) (evs₃ : List Event) (u₃ : Unit)
    (hm : mountPlugins app.plugins = (evs, .ok u))
    (hf : (platforms app.plugins).find? (fun p => p.isRequestRelated server.requestObject)
      = some p)
    (hr : runStages app.env APP_MIDDLEWARES
        ⟨app.mwc, p.createJovoInstance server.requestObject⟩ = (evs₂, .ok st'))
    (hd : dismountPlugins app.plugins = (evs₃, .ok u₃)) :
    handle app server
      = (evs ++ .boundPlatform p.name :: evs₂ ++ evs₃
          ++ respEvents st'.jovo.response, .ok) := by
  unfold handle
  rw [hm]
  dsimp only
  rw [hf]
  dsimp only
  rw [hr]
  dsimp only
  rw [hd]
  cases hresp : st'.jovo.response with
  | none => simp [respEvents]
  | some r => simp [respEvents]

theorem initializeApp_noop (s : AppM) (h : s.initialized = true) :
    initializeApp s = (s, [], .ok) := by
  unfold initializeApp
  rw [h]
  simp

theorem initializeApp_i18n_err (s : AppM) (e : JError)
    (h1 : s.initialized = false) (h2 : s.i18nResult = .error e) :
    initializeApp s
      = (s, (handleError s.hasErrorCallback e).1, (handleError s.hasErrorCallback e).2) := by
  unfold initializeApp
  rw [h1, h2]
  simp

theorem initializeApp_plugins_err (s : AppM) (u : Unit) (evs : List Event) (e : JError)
    (h1 : s.initialized = false) (h2 : s.i18nResult = .ok u)
    (h3 : initializePlugins s.plugins = (evs, .error e)) :
    initializeApp s
      = (s, .i18nInitialized :: (evs ++ (handleError s.hasErrorCallback e).1),
         (handleError s.hasErrorCallback e).2) := by
  unfold initializeApp
  rw [h1, h2, h3]
  simp

theorem initializeApp_success (s : AppM) (u u₂ : Unit) (evs : List Event)
    (h1 : s.initialized = false) (h2 : s.i18nResult = .ok u)
    (h3 : initializePlugins s.plugins = (evs, .ok u₂)) :
    initializeApp s
      = ({ s with initialized := true }, .i18nInitialized :: evs, .ok) := by
  unfold initializeApp
  rw [h1, h2, h3]
  simp

/-- C3: the stage catalog the App constructs its MiddlewareCollection
from (APP_MIDDLEWARES, part_000 lines 28-44, run in full by handle at
line 182) consists of exactly the fifteen names of the specification,
in exactly that order; initializeMiddlewareCollection builds the
request collection over exactly those stages. -/
theorem app_middlewares_catalog :
    APP_MIDDLEWARES
      = ["request.start", "request", "request.end",
         "interpretation.start", "interpretation.asr", "interpretation.nlu",
         "interpretation.end",
         "dialogue.start", "dialogue.router", "dialogue.logic", "dialogue.end",
         "response.start", "response.output", "response.tts", "response.end"]
    ∧ mwcNames initializeMiddlewareCollection = APP_MIDDLEWARES
    ∧ APP_MIDDLEWARES.length = 15 :=
  ⟨rfl, rfl, rfl⟩

/-- C9: stopMiddlewareExecution (part_000 lines 247-249) removes every
stage and its handler list from the request's MiddlewareCollection;
consequently once a handler has emptied the collection, no handler of
any later stage runs and no error is thrown: a pipeline over any
remaining stage list is a no-op, and running an extended stage list
equals running only the prefix that was executed before the
collection became empty. -/
theorem stopMiddlewareExecution_aborts_pipeline :
    (∀ mwc : MwColl, stopMiddlewareExecution mwc = [])
    ∧ (∀ (env : HandlerEnv) (stages : List String) (st : HRState),
        st.mwc = [] → runStages env stages st = ([], .ok st))
    ∧ (∀ (env : HandlerEnv) (s₁ s₂ : List String) (st : HRState)
        (evs : List Event) (st' : HRState),
        runStages env s₁ st = (evs, .ok st') → st'.mwc = [] →
        runStages env (s₁ ++ s₂) st = (evs, .ok st')) := by
  have hempty : ∀ (env : HandlerEnv) (stages : List String) (st : HRState),
      st.mwc = [] → runStages env stages st = ([], .ok st) := by
    intro env stages
    induction stages with
    | nil => intro st _; rfl
    | cons stg rest ih =>
      intro st hst
      have hget : (mwcGet st.mwc stg).getD [] = [] := by rw [hst]; rfl
      have hrh : runHandlers env stg ((mwcGet st.mwc stg).getD []) st = ([], .ok st) := by
        rw [hget]; rfl
      rw [runStages_cons_ok env stg rest st [] st hrh, ih st hst]
      simp
  refine ⟨?_, hempty, ?_⟩
  · intro mwc
    apply List.filter_eq_nil_iff.mpr
    intro p hp
    simp [mwcNames, List.mem_map]
    exact ⟨p.2, hp⟩
  · intro env s₁
    induction s₁ with
    | nil =>
      intro s₂ st evs st' hrun hst'
      rw [runStages_nil] at hrun
      cases hrun
      simpa using hempty env s₂ st hst'
    | cons stg rest ih =>
      intro s₂ st evs st' hrun hst'
      cases hrh : runHandlers env stg ((mwcGet st.mwc stg).getD []) st with
      | mk evs₁ r₁ =>
        cases r₁ with
        | error e =>
          rw [runStages_cons_err env stg rest st evs₁ e hrh] at hrun
          exact absurd (congrArg Prod.snd hrun) (by simp)
        | ok st₁ =>
          rw [runStages_cons_ok env stg rest st evs₁ st₁ hrh] at hrun
          cases hrest : runStages env rest st₁ with
          | mk evs₂ r₂ =>
            rw [hrest] at hrun
            simp only [Prod.mk.injEq] at hrun
            obtain ⟨rfl, hr₂⟩ := hrun
            have hstep := ih s₂ st₁ evs₂ st' (by rw [hrest, hr₂]) hst'
            rw [List.cons_append, runStages_cons_ok env stg (rest ++ s₂) st evs₁ st₁ hrh,
              hstep]

/-- C8: handleError (part_000 lines 197-204) invokes the registered
error callback when one was set through onError and rethrows to the
direct caller when none is registered; moreover every failure inside
handle and inside initializeApp ends in this single sink, so that with
a callback registered neither handle nor initializeApp ever throws. -/
theorem handleError_single_sink :
    (∀ e, handleError true e = ([.calledErrorCallback e], .ok))
    ∧ (∀ e, handleError false e = ([], .thrown e))
    ∧ (∀ (app : AppM) (server : ServerM), app.hasErrorCallback = true →
        (handle app server).2 = .ok)
    ∧ (∀ s : AppM, s.hasErrorCallback = true → (initializeApp s).2.2 = .ok) := by
  refine ⟨fun e => rfl, fun e => rfl, ?_, ?_⟩
  · intro app server hcb
    have hko : ∀ e, (handleError app.hasErrorCallback e).2 = .ok := by
      intro e; rw [hcb]; rfl
    cases hm : mountPlugins app.plugins with
    | mk evs r =>
      cases r with
      | error e => rw [handle_mount_err app server evs e hm]; exact hko e
      | ok u =>
        cases hf : (platforms app.plugins).find?
            (fun p => p.isRequestRelated server.requestObject) with
        | none =>
          rw [handle_no_platform app server evs u hm hf]
          exact hko _
        | some p =>
          cases hr : runStages app.env APP_MIDDLEWARES
              ⟨app.mwc, p.createJovoInstance server.requestObject⟩ with
          | mk evs₂ r₂ =>
            cases r₂ with
            | error e =>
              rw [handle_run_err app server evs u p evs₂ e hm hf hr]
              exact hko e
            | ok st' =>
              cases hd : dismountPlugins app.plugins with
              | mk evs₃ r₃ =>
                cases r₃ with
                | error e =>
                  rw [handle_dismount_err app server evs u p evs₂ st' evs₃ e hm hf hr hd]
                  exact hko e
                | ok u₃ =>
                  rw [handle_success app server evs u p evs₂ st' evs₃ u₃ hm hf hr hd]
  · intro s hcb
    have hko : ∀ e, (handleError s.hasErrorCallback e).2 = .ok := by
      intro e; rw [hcb]; rfl
    cases hin : s.initialized with
    | true => rw [initializeApp_noop s hin]
    | false =>
      cases hi : s.i18nResult with
      | error e => rw [initializeApp_i18n_err s e hin hi]; exact hko e
      | ok u =>
        cases hp : initializePlugins s.plugins with
        | mk evs r =>
          cases r with
          | error e => rw [initializeApp_plugins_err s u evs e hin hi hp]; exact hko e
          | ok u₂ => rw [initializeApp_success s u u₂ evs hin hi hp]

/-- C2: in handle(server) (part_000 lines 172-178 and 192-194) the
registered platform-adapter plugins are queried in registration order
with the raw inbound payload; the first adapter whose recognition
predicate accepts is bound as the request's platform; and when no
registered adapter recognizes the payload, handle raises a
MatchingPlatformNotFoundError that is routed to the error callback via
handleError, and no response is written to the transport. -/
theorem handle_platform_matching (app : AppM) (server : ServerM)
    (hmount : ∀ p ∈ app.plugins, p.mountResult = .ok ()) :
    (∀ p, (platforms app.plugins).find? (fun q => q.isRequestRelated server.requestObject)
        = some p →
      Event.boundPlatform p.name ∈ (handle app server).1
      ∧ p.isRequestRelated server.requestObject = true
      ∧ ∃ l₁ l₂, platforms app.plugins = l₁ ++ p :: l₂
          ∧ ∀ q ∈ l₁, q.isRequestRelated server.requestObject = false)
    ∧ ((platforms app.plugins).find? (fun q => q.isRequestRelated server.requestObject)
        = none →
      handle app server
        = (app.plugins.map (fun p => .mounted p.name)
            ++ (handleError app.hasErrorCallback
                (.matchingPlatformNotFound server.requestObject)).1,
           (handleError app.hasErrorCallback
                (.matchingPlatformNotFound server.requestObject)).2)
      ∧ (app.hasErrorCallback = true →
          (handle app server).2 = .ok
          ∧ Event.calledErrorCallback (.matchingPlatformNotFound server.requestObject)
            ∈ (handle app server).1)
      ∧ (∀ r, Event.wroteResponse r ∉ (handle app server).1)) := by
  have hm := mountPlugins_ok app.plugins hmount
  constructor
  · intro p hf
    have hfirst := find?_first (fun q => q.isRequestRelated server.requestObject)
      (platforms app.plugins) p hf
    refine ⟨?_, hfirst.1, hfirst.2⟩
    cases hr : runStages app.env APP_MIDDLEWARES
        ⟨app.mwc, p.createJovoInstance server.requestObject⟩ with
    | mk evs₂ r₂ =>
      cases r₂ with
      | error e =>
        rw [handle_run_err app server _ () p evs₂ e hm hf hr]
        simp
      | ok st' =>
        cases hd : dismountPlugins app.plugins with
        | mk evs₃ r₃ =>
          cases r₃ with
          | error e =>
            rw [handle_dismount_err app server _ () p evs₂ st' evs₃ e hm hf hr hd]
            simp
          | ok u₃ =>
            rw [handle_success app server _ () p evs₂ st' evs₃ u₃ hm hf hr hd]
            simp
  · intro hf
    have heq := handle_no_platform app server _ () hm hf
    refine ⟨heq, ?_, ?_⟩
    · intro hcb
      rw [heq]
      simp [handleError, hcb]
    · intro r hmem
      rw [heq] at hmem
      cases hcb : app.hasErrorCallback with
      | true => rw [hcb] at hmem; simp [handleError] at hmem
      | false => rw [hcb] at hmem; simp [handleError] at hmem

/-- C4: when the pipeline completes (mount, platform binding, stage
run and dismount all succeed), handle returns normally (part_000 lines
186-191); if the conversational state object carries no response
payload, the transport's setResponse is never invoked; if it carries
one, that payload is written through the transport. -/
theorem handle_response_writing (app : AppM) (server : ServerM) (p : PluginM)
    (evs₂ : List Event) (st' : HRState)
    (hmount : ∀ q ∈ app.plugins, q.mountResult = .ok ())
    (hdism : ∀ q ∈ app.plugins, q.dismountResult = .ok ())
    (hf : (platforms app.plugins).find? (fun q => q.isRequestRelated server.requestObject)
      = some p)
    (hr : runStages app.env APP_MIDDLEWARES
        ⟨app.mwc, p.createJovoInstance server.requestObject⟩ = (evs₂, .ok st')) :
    (handle app server).2 = .ok
    ∧ (st'.jovo.response = none → ∀ r, Event.wroteResponse r ∉ (handle app server).1)
    ∧ (∀ resp, st'.jovo.response = some resp →
        Event.wroteResponse resp ∈ (handle app server).1) := by
  have hm := mountPlugins_ok app.plugins hmount
  have hd := dismountPlugins_ok app.plugins hdism
  have heq := handle_success app server _ () p evs₂ st' _ () hm hf hr hd
  rw [heq]
  refine ⟨rfl, ?_, ?_⟩
  · intro hresp r hmem
    simp [respEvents, hresp] at hmem
    have hmem' : Event.wroteResponse r ∈ (runStages app.env APP_MIDDLEWARES
        ⟨app.mwc, p.createJovoInstance server.requestObject⟩).1 := by
      rw [hr]; exact hmem
    obtain ⟨stg, hid, hq⟩ := runStages_events _ _ _ _ hmem'
    exact absurd hq (by simp)
  · intro resp hresp
    rw [hresp]
    simp [respEvents]

/-- C5 amended: when mount, platform binding and the whole stage run
succeed, dismountPlugins runs after the pipeline for every registered
plugin, in registration order; but when a stage handler (or a mount
hook) fails, handle jumps to the catch branch (part_000 lines 192-194)
without reaching the dismount call at line 184, so no plugin is
dismounted for that request. -/
theorem handle_dismount_after_pipeline (app : AppM) (server : ServerM) (p : PluginM)
    (hmount : ∀ q ∈ app.plugins, q.mountResult = .ok ())
    (hf : (platforms app.plugins).find? (fun q => q.isRequestRelated server.requestObject)
      = some p) :
    (∀ evs₂ st', runStages app.env APP_MIDDLEWARES
        ⟨app.mwc, p.createJovoInstance server.requestObject⟩ = (evs₂, .ok st') →
      (∀ q ∈ app.plugins, q.dismountResult = .ok ()) →
      handle app server
        = (app.plugins.map (fun q => .mounted q.name)
            ++ .boundPlatform p.name :: evs₂
            ++ app.plugins.map (fun q => .dismounted q.name)
            ++ respEvents st'.jovo.response, .ok))
    ∧ (∀ evs₂ e, runStages app.env APP_MIDDLEWARES
        ⟨app.mwc, p.createJovoInstance server.requestObject⟩ = (evs₂, .error e) →
      ∀ n, Event.dismounted n ∉ (handle app server).1)
    ∧ (∀ (app' : AppM) (evs : List Event) (e : JError),
        mountPlugins app'.plugins = (evs, .error e) →
        ∀ n, Event.dismounted n ∉ (handle app' server).1) := by
  have hm := mountPlugins_ok app.plugins hmount
  refine ⟨?_, ?_, ?_⟩
  · intro evs₂ st' hr hdism
    exact handle_success app server _ () p evs₂ st' _ ()
      hm hf hr (dismountPlugins_ok app.plugins hdism)
  · intro evs₂ e hr n hmem
    rw [handle_run_err app server _ () p evs₂ e hm hf hr] at hmem
    cases hcb : app.hasErrorCallback with
    | true =>
      rw [hcb] at hmem
      simp [handleError] at hmem
      have hmem' : Event.dismounted n ∈ (runStages app.env APP_MIDDLEWARES
          ⟨app.mwc, p.createJovoInstance server.requestObject⟩).1 := by
        rw [hr]; exact hmem
      obtain ⟨stg, hid, hq⟩ := runStages_events _ _ _ _ hmem'
      exact absurd hq (by simp)
    | false =>
      rw [hcb] at hmem
      simp [handleError] at hmem
      have hmem' : Event.dismounted n ∈ (runStages app.env APP_MIDDLEWARES
          ⟨app.mwc, p.createJovoInstance server.requestObject⟩).1 := by
        rw [hr]; exact hmem
      obtain ⟨stg, hid, hq⟩ := runStages_events _ _ _ _ hmem'
      exact absurd hq (by simp)
  · intro app' evs e hmnt n hmem
    rw [handle_mount_err app' server evs e hmnt] at hmem
    cases hcb : app'.hasErrorCallback with
    | true =>
      rw [hcb] at hmem
      simp [handleError] at hmem
      have hmem' : Event.dismounted n ∈ (mountPlugins app'.plugins).1 := by
        rw [hmnt]; exact hmem
      obtain ⟨m, hq⟩ := mountPlugins_events _ _ hmem'
      exact absurd hq (by simp)
    | false =>
      rw [hcb] at hmem
      simp [handleError] at hmem
      have hmem' : Event.dismounted n ∈ (mountPlugins app'.plugins).1 := by
        rw [hmnt]; exact hmem
      obtain ⟨m, hq⟩ := mountPlugins_events _ _ hmem'
      exact absurd hq (by simp)

/-- C7: App.initialize (part_000 lines 127-138) is idempotent once it
has succeeded: the first successful call performs i18n setup and
plugin initialization exactly once and sets the initialized flag;
calling it again on the resulting state performs no setup work and
returns successfully as a no-op. -/
theorem initialize_idempotent (s : AppM)
    (hinit : s.initialized = false)
    (hi18n : s.i18nResult = .ok ())
    (hplug : ∀ p ∈ s.plugins, p.initResult = .ok ()) :
    ((initializeApp s).1).initialized = true
    ∧ (initializeApp s).2
      = (.i18nInitialized :: s.plugins.map (fun p => .pluginInitialized p.name), .ok)
    ∧ initializeApp (initializeApp s).1 = ((initializeApp s).1, [], .ok) := by
  have hp := initializePlugins_ok s.plugins hplug
  rw [initializeApp_success s () () _ hinit hi18n hp]
  exact ⟨rfl, rfl, initializeApp_noop _ rfl⟩

/-- C10: when initialize fails (the i18n setup or the plugin
initialization rejects, part_000 lines 131-137), the initialized flag
stays false, the whole App state is unchanged, and the error is routed
to handleError; a later initialize call is therefore not a no-op but
repeats the same full setup attempt. -/
theorem initialize_failure_retryable (s : AppM) (e : JError)
    (hinit : s.initialized = false)
    (hfail : s.i18nResult = .error e
      ∨ (s.i18nResult = .ok () ∧ (initializePlugins s.plugins).2 = .error e)) :
    (initializeApp s).1 = s
    ∧ ((initializeApp s).1).initialized = false
    ∧ (initializeApp s).2.2 = (handleError s.hasErrorCallback e).2
    ∧ (s.hasErrorCallback = true →
        (initializeApp s).2.2 = .ok
        ∧ Event.calledErrorCallback e ∈ (initializeApp s).2.1)
    ∧ initializeApp (initializeApp s).1 = initializeApp s := by
  rcases hfail with hi | ⟨hi, hp2⟩
  · have heq := initializeApp_i18n_err s e hinit hi
    have h1 : (initializeApp s).1 = s := by rw [heq]
    refine ⟨h1, by rw [h1]; exact hinit, by rw [heq], ?_, by rw [h1]⟩
    intro hcb
    rw [heq]
    simp [handleError, hcb]
  · cases hp : initializePlugins s.plugins with
    | mk evs r =>
      rw [hp] at hp2
      cases r with
      | ok u => exact absurd hp2 (by simp)
      | error e' =>
        simp only [Except.error.injEq] at hp2
        rw [hp2] at hp
        have heq := initializeApp_plugins_err s () evs e hinit hi hp
        have h1 : (initializeApp s).1 = s := by rw [heq]
        refine ⟨h1, by rw [h1]; exact hinit, by rw [heq], ?_, by rw [h1]⟩
        intro hcb
        rw [heq]
        simp [handleError, hcb]

/-- True exactly on dismount events, used by the C5 counterexample. -/
def isDismountedEv : Event → Bool
  | .dismounted _ => true
  | _ => false

/-- Concrete ordinary plugin used by the witnesses. -/
def pluginW : PluginM :=
  ⟨"pluginA", false, fun _ => false, fun _ => ⟨none⟩, .ok (), .ok (), .ok ()⟩

/-- Concrete platform plugin that recognizes the request reqA. -/
def platformW : PluginM :=
  ⟨"platformA", true, fun r => r == "reqA", fun _ => ⟨none⟩, .ok (), .ok (), .ok ()⟩

/-- Handler pool where every handler is the identity. -/
def envIdW : HandlerEnv := fun _ => fun st => .ok st

/-- Handler pool where every handler throws. -/
def envFailW : HandlerEnv := fun _ => fun _ => .error (.hookError "boom")

/-- Handler pool where every handler writes the response respA. -/
def envRespW : HandlerEnv := fun _ => fun st => .ok ⟨st.mwc, ⟨some "respA"⟩⟩

/-- Handler pool where every handler clears the middleware collection,
as a handler calling stopMiddlewareExecution does. -/
def envStopW : HandlerEnv := fun _ => fun st => .ok ⟨stopMiddlewareExecution st.mwc, st.jovo⟩

/-- Collection with one handler (id 0) registered at the given stage
and none elsewhere. -/
def mwcOneW (stage : String) : MwColl :=
  APP_MIDDLEWARES.map (fun n => (n, if n = stage then [0] else []))

/-- Concrete App with an ordinary plugin and one platform, no stage
handlers, an error callback registered. -/
def appW : AppM :=
  ⟨[pluginW, platformW], initializeMiddlewareCollection, envIdW, .ok (), false, true⟩

/-- Concrete App whose request.start handler throws. -/
def appFailRunW : AppM :=
  ⟨[pluginW, platformW], mwcOneW "request.start", envFailW, .ok (), false, true⟩

/-- Concrete App whose response.output handler writes a response. -/
def appRespW : AppM :=
  ⟨[platformW], mwcOneW "response.output", envRespW, .ok (), false, true⟩

/-- Concrete plugin whose mount hook throws. -/
def pluginMountFailW : PluginM :=
  ⟨"pluginB", false, fun _ => false, fun _ => ⟨none⟩,
   .error (.hookError "mount"), .ok (), .ok ()⟩

/-- Concrete App whose first plugin fails to mount. -/
def appMountFailW : AppM :=
  ⟨[pluginMountFailW, platformW], initializeMiddlewareCollection, envIdW, .ok (), false, true⟩

/-- Concrete App whose i18n initialization fails. -/
def appI18nFailW : AppM :=
  ⟨[pluginW], initializeMiddlewareCollection, envIdW, .error (.hookError "i18n"), false, true⟩

/-- Concrete server for the recognized request. -/
def serverW : ServerM := ⟨"reqA"⟩

/-- Concrete server whose payload no platform recognizes. -/
def serverUnknownW : ServerM := ⟨"reqB"⟩

/-- C5 counterexample: a request during which the request.start stage
handler throws. Both registered plugins stay mounted: the trace of
handle contains no dismount event at all, refuting the claim that
dismountPlugins runs for every registered plugin even when a stage
handler fails. -/
theorem handle_dismount_skipped_counterexample :
    appFailRunW.plugins.map PluginM.name = ["pluginA", "platformA"]
    ∧ handle appFailRunW serverW
      = ([.mounted "pluginA", .mounted "platformA", .boundPlatform "platformA",
          .ranHandler "request.start" 0, .calledErrorCallback (.hookError "boom")], .ok)
    ∧ (handle appFailRunW serverW).1.filter isDismountedEv = [] := by
  refine ⟨rfl, ?_, ?_⟩ <;> rfl

/-- Witness for C2 at the concrete App: the unknown payload reqB is
recognized by no platform, so handle routes the no-matching-platform
error to the callback and writes nothing; the recognized payload reqA
binds platformA. -/
theorem handle_platform_matching_witness :
    handle appW serverUnknownW
      = (appW.plugins.map (fun p => .mounted p.name)
          ++ (handleError appW.hasErrorCallback
              (.matchingPlatformNotFound serverUnknownW.requestObject)).1,
         (handleError appW.hasErrorCallback
              (.matchingPlatformNotFound serverUnknownW.requestObject)).2)
    ∧ Event.wroteResponse "respA" ∉ (handle appW serverUnknownW).1
    ∧ Event.boundPlatform platformW.name ∈ (handle appW serverW).1 := by
  have H := handle_platform_matching appW serverUnknownW
    (by intro p hp; fin_cases hp <;> rfl)
  have H2 := handle_platform_matching appW serverW
    (by intro p hp; fin_cases hp <;> rfl)
  exact ⟨(H.2 rfl).1, (H.2 rfl).2.2 "respA", (H2.1 platformW rfl).1⟩

/-- Witness for C4 at the concrete Apps: with no handler writing a
response, handle returns normally and writes nothing; with a
response.output handler writing respA, that payload is written. -/
theorem handle_response_writing_witness :
    (handle appW serverW).2 = .ok
    ∧ Event.wroteResponse "respA" ∉ (handle appW serverW).1
    ∧ Event.wroteResponse "respA" ∈ (handle appRespW serverW).1 := by
  have H1 := handle_response_writing appW serverW platformW []
    ⟨initializeMiddlewareCollection, ⟨none⟩⟩
    (by intro q hq; fin_cases hq <;> rfl) (by intro q hq; fin_cases hq <;> rfl) rfl rfl
  have H2 := handle_response_writing appRespW serverW platformW
    [Event.ranHandler "response.output" 0]
    ⟨mwcOneW "response.output", ⟨some "respA"⟩⟩
    (by intro q hq; fin_cases hq <;> rfl) (by intro q hq; fin_cases hq <;> rfl) rfl rfl
  exact ⟨H1.1, H1.2.1 rfl "respA", H2.2.2 "respA" rfl⟩

/-- Witness for C5 amended at the concrete Apps: on the successful
request both plugins are dismounted in registration order after the
pipeline; on the request whose request.start handler throws, and on
the request whose first plugin fails to mount, nothing is
dismounted. -/
theorem handle_dismount_after_pipeline_witness :
    handle appW serverW
      = (appW.plugins.map (fun q => .mounted q.name)
          ++ .boundPlatform platformW.name :: ([] : List Event)
          ++ appW.plugins.map (fun q => .dismounted q.name)
          ++ respEvents none, .ok)
    ∧ Event.dismounted "pluginA" ∉ (handle appFailRunW serverW).1
    ∧ Event.dismounted "pluginB" ∉ (handle appMountFailW serverW).1 := by
  have H := handle_dismount_after_pipeline appW serverW platformW
    (by intro q hq; fin_cases hq <;> rfl) rfl
  have H2 := handle_dismount_after_pipeline appFailRunW serverW platformW
    (by intro q hq; fin_cases hq <;> rfl) rfl
  exact ⟨H.1 [] ⟨initializeMiddlewareCollection, ⟨none⟩⟩ rfl
      (by intro q hq; fin_cases hq <;> rfl),
    H2.2.1 [Event.ranHandler "request.start" 0] (.hookError "boom") rfl "pluginA",
    H2.2.2 appMountFailW [] (.hookError "mount") rfl "pluginB"⟩

/-- Witness for C7 at the concrete App: the first call initializes
i18n and both plugins and flips the flag; the second call is a no-op. -/
theorem initialize_idempotent_witness :
    ((initializeApp appW).1).initialized = true
    ∧ (initializeApp appW).2
      = (.i18nInitialized :: appW.plugins.map (fun p => .pluginInitialized p.name), .ok)
    ∧ initializeApp (initializeApp appW).1 = ((initializeApp appW).1, [], .ok) :=
  initialize_idempotent appW rfl rfl (by intro p hp; fin_cases hp <;> rfl)

/-- Witness for C8 at concrete states: both handleError branches, and
that neither a failing handle nor a failing initializeApp throws once
a callback is registered. -/
theorem handleError_single_sink_witness :
    handleError true (.hookError "x") = ([.calledErrorCallback (.hookError "x")], .ok)
    ∧ handleError false (.hookError "x") = ([], .thrown (.hookError "x"))
    ∧ (handle appFailRunW serverW).2 = .ok
    ∧ (initializeApp appI18nFailW).2.2 = .ok := by
  have H := handleError_single_sink
  exact ⟨H.1 _, H.2.1 _, H.2.2.1 appFailRunW serverW rfl, H.2.2.2 appI18nFailW rfl⟩

/-- Request state with one stopping handler at dialogue.router, for
the C9 witness. -/
def stStopW : HRState := ⟨mwcOneW "dialogue.router", ⟨none⟩⟩

/-- Witness for C9 at a concrete request: the dialogue.router handler
calls stopMiddlewareExecution, after which running the whole remaining
catalog runs nothing further and throws nothing. -/
theorem stopMiddlewareExecution_aborts_pipeline_witness :
    stopMiddlewareExecution (mwcOneW "dialogue.router") = []
    ∧ runStages envStopW (List.take 9 APP_MIDDLEWARES ++ List.drop 9 APP_MIDDLEWARES)
        stStopW
      = ([.ranHandler "dialogue.router" 0], .ok ⟨[], ⟨none⟩⟩) := by
  have H := stopMiddlewareExecution_aborts_pipeline
  exact ⟨H.1 _, H.2.2 envStopW _ _ stStopW _ _ rfl rfl⟩

/-- Witness for C10 at the concrete App whose i18n setup fails: the
state is unchanged, the flag stays false, the error reaches the
callback, and the next call repeats the attempt. -/
theorem initialize_failure_retryable_witness :
    (initializeApp appI18nFailW).1 = appI18nFailW
    ∧ ((initializeApp appI18nFailW).1).initialized = false
    ∧ (initializeApp appI18nFailW).2.2
      = (handleError appI18nFailW.hasErrorCallback (.hookError "i18n")).2
    ∧ ((initializeApp appI18nFailW).2.2 = .ok
        ∧ Event.calledErrorCallback (.hookError "i18n") ∈ (initializeApp appI18nFailW).2.1)
    ∧ initializeApp (initializeApp appI18nFailW).1 = initializeApp appI18nFailW := by
  have H := initialize_failure_retryable appI18nFailW (.hookError "i18n") rfl (Or.inl rfl)
  exact ⟨H.1, H.2.1, H.2.2.1, H.2.2.2.1 rfl, H.2.2.2.2⟩
